import Mathlib

/-!
Verification of the simulation-framework core of `simulator-gen`
(`packages/lib/src/framework`: `events.ts`, `state-machine.ts`,
`simulation-engine.ts`) against its natural-language specification.

The TypeScript classes are shallowly embedded as Lean structures with
explicit state passing:
* mutable fields become structure fields,
* wall-clock reads (`new Date()`, `nowISO()`) become explicit `now` / `ts`
  parameters,
* side-effecting callbacks (`onStateChange`, `onTick`, ...) are recorded in
  an explicit trace instead of being invoked,
* the domain-supplied abstract method `handleEvent` is a parameter `H`
  describing which machine operations the domain behavior performs,
* possibly non-terminating drain loops take a fuel argument and return
  `Option` (`none` = the loop has not finished within `fuel` steps).

States are modelled as `String`: the transition table in the source is
`Record<string, string[]>` and every lookup goes through `String(state)`.
-/

set_option linter.unusedVariables false

namespace SimF

/-- Model of `Event` from `events.ts`: `{id, type, timestamp, payload?}`.
The domain-defined payload is modelled as an optional string. -/
structure Event where
  id : String
  type : String
  timestamp : String
  payload : Option String := none
deriving Repr, DecidableEq

/-! ### Event dispatch (`events.ts`, class `EventQueue`) -/

/-- A registered event handler (`EventHandler` = `(event) => void`).
Its observable behavior during one invocation: the events it enqueues into
the owning queue, and whether it finishes by throwing.  `name` identifies
the handler in the invocation trace. -/
structure HandlerB where
  name : String
  enq : Event → List Event
  throwsOn : Event → Bool

/-- Trace of observable actions taken by `EventQueue.process`. -/
inductive QTrace where
  | invoked (handlerName : String) (eventId : String)
  | errorLogged (handlerName : String)
deriving Repr, DecidableEq

/-- State of an `EventQueue`: the FIFO `queue`, the per-type handler map
(`Map<string, EventHandler[]>`, kept as an association list in insertion
order), and the `globalHandlers` list.  `processed` and `trace` are
instrumentation recording the events processed so far and the handler
invocations performed. -/
structure EQState where
  queue : List Event
  handlers : List (String × List HandlerB)
  globalHandlers : List HandlerB
  processed : List Event
  trace : List QTrace

/-- Model of `enqueue(event)`: `this.queue.push(event)`. -/
def enqueue (s : EQState) (e : Event) : EQState :=
  { s with queue := s.queue ++ [e] }

/-- Lookup in the handler map (`this.handlers.get(eventType) ?? []`). -/
def handlersFor (hs : List (String × List HandlerB)) (t : String) : List HandlerB :=
  ((hs.find? (fun p => p.1 == t)).map Prod.snd).getD []

/-- Model of `on(eventType, handler)`: create the entry if absent, then push. -/
def addHandler : List (String × List HandlerB) → String → HandlerB → List (String × List HandlerB)
  | [], t, h => [(t, [h])]
  | (k, l) :: rest, t, h =>
    if k == t then (k, l ++ [h]) :: rest else (k, l) :: addHandler rest t h

/-- Model of `EventQueue.on`. -/
def onType (s : EQState) (t : String) (h : HandlerB) : EQState :=
  { s with handlers := addHandler s.handlers t h }

/-- Model of `EventQueue.onAny`: `this.globalHandlers.push(handler)`. -/
def onAny (s : EQState) (h : HandlerB) : EQState :=
  { s with globalHandlers := s.globalHandlers ++ [h] }

/-- The handlers `process(event)` iterates over: all type-specific handlers
for `event.type` (first loop), then all global handlers (second loop). -/
def matchedHandlers (s : EQState) (e : Event) : List HandlerB :=
  handlersFor s.handlers e.type ++ s.globalHandlers

/-- The body of the two `for` loops of `process`: invoke each handler in
order; a handler's enqueues land at the tail of the queue; a throw is
caught and logged (`console.error`) and iteration continues. -/
def runHandlers (e : Event) : List HandlerB → EQState → EQState
  | [], s => s
  | h :: rest, s =>
    runHandlers e rest
      { s with
        queue := s.queue ++ h.enq e,
        trace := s.trace ++ [QTrace.invoked h.name e.id] ++
          (if h.throwsOn e then [QTrace.errorLogged h.name] else []) }

/-- Model of `EventQueue.process(event)`. -/
def process (s : EQState) (e : Event) : EQState :=
  runHandlers e (matchedHandlers s e) s

/-- All events enqueued into the queue while processing `e`
(the concatenation of the enqueues of every matched handler, throwing or
not: in the source a throw is caught after the handler ran). -/
def enqOf (s : EQState) (e : Event) : List Event :=
  (matchedHandlers s e).flatMap (fun h => h.enq e)

/-- The trace entries appended by `process s e`. -/
def processTrace (s : EQState) (e : Event) : List QTrace :=
  (matchedHandlers s e).flatMap (fun h =>
    QTrace.invoked h.name e.id ::
      (if h.throwsOn e then [QTrace.errorLogged h.name] else []))

/-- Projection of a trace to the invoked (handler, event-id) pairs. -/
def invocationsOf : List QTrace → List (String × String)
  | [] => []
  | QTrace.invoked n i :: rest => (n, i) :: invocationsOf rest
  | QTrace.errorLogged _ :: rest => invocationsOf rest

/-- Model of `EventQueue.processAll()`: `while (!isEmpty) { process(dequeue()) }`,
with `fuel` bounding the number of loop iterations (the source loop may run
forever if handlers keep enqueueing); `none` means the loop has not
terminated within `fuel` iterations. -/
def processAllF (fuel : Nat) (s : EQState) : Option EQState :=
  match s.queue with
  | [] => some s
  | e :: rest =>
    match fuel with
    | 0 => none
    | fuel' + 1 =>
      processAllF fuel' (process { s with queue := rest, processed := s.processed ++ [e] } e)

/-! ### State machine (`state-machine.ts`, class `BaseStateMachine`)

`BaseStateMachine` owns `_currentState`, `_allowedTransitions`,
`_stateHistory` and an `EventQueue` whose single global handler (installed
by the default `setupEventHandlers`) is `(event) => this.processEvent(event)`;
that handler is inlined into the drain below.  The abstract domain method
`handleEvent` is a parameter `H`: given the machine it observes and the
event, it yields the sequence of machine operations the domain code
performs (calls to `transition`, calls to `queueEvent`, or a throw, which
aborts the rest of the behavior). -/

/-- One entry of `_stateHistory`: `{state, timestamp}`. -/
structure HistoryEntry where
  state : String
  timestamp : String
deriving Repr, DecidableEq

/-- Mutable state of a `BaseStateMachine`. -/
structure Machine where
  currentState : String
  allowedTransitions : List (String × List String)
  stateHistory : List HistoryEntry
  eventQueue : List Event
deriving Repr, DecidableEq

/-- An operation performed by the domain-supplied `handleEvent` body. -/
inductive DomainAct where
  | transitionTo (target : String)
  | queueEv (e : Event)
  | throwErr
deriving Repr, DecidableEq

/-- The domain behavior `handleEvent`, as the list of operations it
performs when invoked on a machine in a given state with a given event. -/
abbrev Handle := Machine → Event → List DomainAct

/-- Observable actions of the state machine (callback invocations and
logged errors). -/
inductive MTrace where
  | stateChange (src dst : String)
  | invalidTransition (src dst : String)
  | handlerErrorLogged (eventType : String)
deriving Repr, DecidableEq

/-- Model of `this._allowedTransitions[currentStateKey] || []`. -/
def lookupTransitions (table : List (String × List String)) (k : String) : List String :=
  ((table.find? (fun p => p.1 == k)).map Prod.snd).getD []

/-- Model of `BaseStateMachine.canTransition`: `allowed.includes(newStateKey)`.
(`String(state)` is the identity here since states are strings.) -/
def canTransition (m : Machine) (newState : String) : Bool :=
  (lookupTransitions m.allowedTransitions m.currentState).contains newState

/-- Model of `BaseStateMachine.queueEvent`: `this._eventQueue.enqueue(event)`. -/
def queueEventM (m : Machine) (e : Event) : Machine :=
  { m with eventQueue := m.eventQueue ++ [e] }

mutual

/-- Model of `BaseStateMachine.transition(newState)`.  On an allowed transition the
source updates `_currentState`, appends to `_stateHistory`, invokes
`onStateChange`, then calls `processPendingEvents()` (the drain), which may
reenter the machine through the domain behavior; otherwise it invokes
`onInvalidTransition` and changes nothing.  `ts` is the `nowISO()`
timestamp; `fuel` bounds the reentrant drain. -/
def transitionF (H : Handle) (fuel : Nat) (m : Machine) (newState : String) (ts : String) :
    Option (Machine × Bool × List MTrace) :=
  match fuel with
  | 0 => none
  | fuel' + 1 =>
    if canTransition m newState then
      match drainF H fuel'
          { m with currentState := newState,
                   stateHistory := m.stateHistory ++ [⟨newState, ts⟩] } ts with
      | some (m₂, tr₂) =>
        some (m₂, true, MTrace.stateChange m.currentState newState :: tr₂)
      | none => none
    else
      some (m, false, [MTrace.invalidTransition m.currentState newState])

/-- Model of `BaseStateMachine.forceTransition(newState)`: the successful-transition
side effects without the `canTransition` check. -/
def forceTransitionF (H : Handle) (fuel : Nat) (m : Machine) (newState : String) (ts : String) :
    Option (Machine × List MTrace) :=
  match fuel with
  | 0 => none
  | fuel' + 1 =>
    match drainF H fuel'
        { m with currentState := newState,
                 stateHistory := m.stateHistory ++ [⟨newState, ts⟩] } ts with
    | some (m₂, tr₂) =>
      some (m₂, MTrace.stateChange m.currentState newState :: tr₂)
    | none => none

/-- Model of `processPendingEvents()` = `this._eventQueue.processAll()` where the
queue's only handler is the global `(event) => this.processEvent(event)`:
repeatedly dequeue and run `processEvent` until the queue is empty. -/
def drainF (H : Handle) (fuel : Nat) (m : Machine) (ts : String) :
    Option (Machine × List MTrace) :=
  match fuel with
  | 0 => none
  | fuel' + 1 =>
    match m.eventQueue with
    | [] => some (m, [])
    | e :: rest =>
      match processEventF H fuel' { m with eventQueue := rest } e ts with
      | some (m₁, tr₁) =>
        match drainF H fuel' m₁ ts with
        | some (m₂, tr₂) => some (m₂, tr₁ ++ tr₂)
        | none => none
      | none => none

/-- Model of `BaseStateMachine.processEvent(event)`:
`try { this.handleEvent(event) } catch (error) { log }` — the domain
behavior runs; if it throws, the error is caught and logged and
`processEvent` returns normally. -/
def processEventF (H : Handle) (fuel : Nat) (m : Machine) (e : Event) (ts : String) :
    Option (Machine × List MTrace) :=
  match fuel with
  | 0 => none
  | fuel' + 1 =>
    match runActs H fuel' m (H m e) ts with
    | some (m₁, tr₁, threw) =>
      some (m₁, tr₁ ++ (if threw then [MTrace.handlerErrorLogged e.type] else []))
    | none => none

/-- Runs the operations of a domain behavior in order.  A throw abandons
the remaining operations and is reported in the `Bool` component (to be
caught by `processEvent`).  `transition` performed by the behavior is the
real `transitionF`, so reentrant drains happen exactly as in the source. -/
def runActs (H : Handle) (fuel : Nat) (m : Machine) (acts : List DomainAct) (ts : String) :
    Option (Machine × List MTrace × Bool) :=
  match fuel with
  | 0 => none
  | fuel' + 1 =>
    match acts with
    | [] => some (m, [], false)
    | DomainAct.queueEv e :: rest => runActs H fuel' (queueEventM m e) rest ts
    | DomainAct.throwErr :: _ => some (m, [], true)
    | DomainAct.transitionTo t :: rest =>
      match transitionF H fuel' m t ts with
      | some (m₁, _ok, tr₁) =>
        match runActs H fuel' m₁ rest ts with
        | some (m₂, tr₂, threw) => some (m₂, tr₁ ++ tr₂, threw)
        | none => none
      | none => none

end

/-- Model of `BaseStateMachine.reset()`:
`const initialState = this._stateHistory[0]?.state; if (initialState) {
forceTransition(initialState); this._stateHistory = this._stateHistory.slice(0, 1) }`.
Note the JavaScript truthiness guard: for string states the empty string is
falsy, in which case `reset` does nothing. -/
def resetF (H : Handle) (fuel : Nat) (m : Machine) (ts : String) :
    Option (Machine × List MTrace) :=
  match m.stateHistory.head? with
  | none => some (m, [])
  | some h0 =>
    if h0.state == "" then some (m, [])
    else
      match forceTransitionF H fuel m h0.state ts with
      | some (m₁, tr₁) => some ({ m₁ with stateHistory := m₁.stateHistory.take 1 }, tr₁)
      | none => none

/-! ### Scheduling engine (`simulation-engine.ts`, class `SimulationEngine`)

Wall-clock reads become `now : Int` (milliseconds) parameters; the
randomized choices (`pick` over the generators, `rand` for the next
interval) become an explicit generator-index parameter, and the pending
`setTimeout` handle is modelled as the flag `timerSet` (the concrete delay
value does not affect any claim).  An event generator is modelled by the
result of invoking it: `some e` (returns the event `e`) or `none`
(throws). -/

/-- Model of `SimulationStatus`. -/
inductive SimulationStatus where
  | stopped
  | running
  | paused
deriving Repr, DecidableEq

/-- The merged `SimulationOptions` stored by `start` (defaults:
`minInterval=1500`, `maxInterval=4500`, `maxEvents=0`, no generators). -/
structure SimOptions where
  minInterval : Int := 1500
  maxInterval : Int := 4500
  eventGenerators : List (Option Event) := []
  maxEvents : Nat := 0
deriving Repr, DecidableEq

/-- Mutable state of a `SimulationEngine` (callbacks are traced, not
stored). -/
structure Engine where
  machine : Machine
  status : SimulationStatus := SimulationStatus.stopped
  options : SimOptions := {}
  timerSet : Bool := false
  eventCount : Nat := 0
  startTime : Option Int := none
  pausedTime : Option Int := none
  totalPausedDuration : Int := 0
deriving Repr, DecidableEq

/-- Observable actions of the engine: lifecycle callbacks, `onTick`,
`onEventProcessed`, plus the wrapped machine's own trace. -/
inductive ETrace where
  | onStart
  | onStop
  | onPause
  | onResume
  | onTick
  | onEventProcessed (eventId : String)
  | fromMachine (t : MTrace)
deriving Repr, DecidableEq

/-- Result of running code that may throw to its caller (the engine never
catches generator errors) or exhaust the drain fuel. -/
inductive TickResult where
  | ok (E : Engine) (tr : List ETrace)
  | threw (E : Engine) (tr : List ETrace)
  | outOfFuel
deriving Repr, DecidableEq

/-- Model of `stats` (getter).  `runtime = now − startTime − totalPausedDuration`,
additionally subtracting `now − pausedTime` when Paused, clamped by
`Math.max(0, runtime)`; `0` when the engine was never started. -/
structure Stats where
  status : SimulationStatus
  eventCount : Nat
  runtime : Int
  currentState : String
deriving Repr, DecidableEq

/-- Model of `SimulationEngine.stats`. -/
def statsF (E : Engine) (now : Int) : Stats :=
  let runtime : Int :=
    match E.startTime with
    | none => 0
    | some s =>
      let r := now - s - E.totalPausedDuration
      if E.status == SimulationStatus.paused then
        match E.pausedTime with
        | some p => r - (now - p)
        | none => r
      else r
  { status := E.status, eventCount := E.eventCount,
    runtime := max 0 runtime, currentState := E.machine.currentState }

/-- Model of `SimulationEngine.stop()`: no-op when already Stopped, otherwise clear
the timer, set status Stopped, invoke `onStop`. -/
def stopF (E : Engine) : Engine × List ETrace :=
  if E.status == SimulationStatus.stopped then (E, [])
  else ({ E with timerSet := false, status := SimulationStatus.stopped }, [ETrace.onStop])

/-- Model of `SimulationEngine._scheduleNextEvent()`: nothing unless Running;
auto-`stop` when a positive max-event cap has been reached; otherwise
register the next tick timer. -/
def scheduleNextF (E : Engine) : Engine × List ETrace :=
  if E.status == SimulationStatus.running then
    if E.options.maxEvents > 0 && E.eventCount ≥ E.options.maxEvents then
      stopF E
    else
      ({ E with timerSet := true }, [])
  else (E, [])

/-- Model of `SimulationEngine._processEvent(event)`:
`try { machine.processEvent(event); eventCount++; onEventProcessed(event) }
catch { log }`.  `BaseStateMachine.processEvent` never throws (it catches
the domain behavior itself), so the body completes and the count always
increments; `none` only reports drain-fuel exhaustion. -/
def engProcessEvent (H : Handle) (fuel : Nat) (E : Engine) (e : Event) (ts : String) :
    Option (Engine × List ETrace) :=
  match processEventF H fuel E.machine e ts with
  | some (m₁, mtr) =>
    some ({ E with machine := m₁, eventCount := E.eventCount + 1 },
      mtr.map ETrace.fromMachine ++ [ETrace.onEventProcessed e.id])
  | none => none

/-- Model of `SimulationEngine.injectEvent(event)`: exactly `_processEvent(event)`,
with no status check. -/
def injectEventF (H : Handle) (fuel : Nat) (E : Engine) (e : Event) (ts : String) :
    Option (Engine × List ETrace) :=
  engProcessEvent H fuel E e ts

/-- Model of `SimulationEngine.tick()`: nothing unless Running; invoke `onTick`;
then, if generators are configured, pick one (`gIdx` resolves the random
choice), invoke it and feed the event to `_processEvent`.  The generator
call `generator()` is NOT wrapped in any try/catch in the source: a
throwing generator makes `tick` itself throw (`TickResult.threw`), after
`onTick` already fired and with `eventCount` unchanged. -/
def tickF (H : Handle) (fuel : Nat) (E : Engine) (gIdx : Nat) (ts : String) : TickResult :=
  if E.status == SimulationStatus.running then
    if E.options.eventGenerators.isEmpty then TickResult.ok E [ETrace.onTick]
    else
      match E.options.eventGenerators.getD
          (gIdx % E.options.eventGenerators.length) none with
      | some e =>
        match engProcessEvent H fuel E e ts with
        | some (E₁, tr₁) => TickResult.ok E₁ (ETrace.onTick :: tr₁)
        | none => TickResult.outOfFuel
      | none => TickResult.threw E [ETrace.onTick]
  else TickResult.ok E []

/-- The body of the `setTimeout` callback registered by
`_scheduleNextEvent`: `if (status === Running) { tick(); scheduleNext() }`.
The status check is the stale-timer guard.  When `tick()` throws, the
exception escapes the callback and `_scheduleNextEvent` is never reached. -/
def timerCallbackBody (H : Handle) (fuel : Nat) (E : Engine) (gIdx : Nat) (ts : String) :
    TickResult :=
  if E.status == SimulationStatus.running then
    match tickF H fuel E gIdx ts with
    | TickResult.ok E₁ tr₁ =>
      TickResult.ok (scheduleNextF E₁).1 (tr₁ ++ (scheduleNextF E₁).2)
    | TickResult.threw E₁ tr₁ => TickResult.threw E₁ tr₁
    | TickResult.outOfFuel => TickResult.outOfFuel
  else TickResult.ok E []

/-- A firing of the scheduled timer: only an actually pending timer fires,
and firing consumes it before the callback body runs. -/
def timerFire (H : Handle) (fuel : Nat) (E : Engine) (gIdx : Nat) (ts : String) : TickResult :=
  if E.timerSet then timerCallbackBody H fuel { E with timerSet := false } gIdx ts
  else TickResult.ok E []

/-- Model of `SimulationEngine.start(options)`: warn-and-return when Running;
otherwise store merged options, set Running, zero `eventCount`, stamp
`startTime`, zero the pause accounting, invoke `onStart`, schedule the
first tick. -/
def startF (E : Engine) (opts : SimOptions) (now : Int) : Engine × List ETrace :=
  if E.status == SimulationStatus.running then (E, [])
  else
    let r := scheduleNextF
      { E with options := opts, status := SimulationStatus.running,
               eventCount := 0, startTime := some now,
               totalPausedDuration := 0, pausedTime := none }
    (r.1, ETrace.onStart :: r.2)

/-- Model of `SimulationEngine.pause()`: only from Running; clear the timer, record
the pause start, set Paused, invoke `onPause`. -/
def pauseF (E : Engine) (now : Int) : Engine × List ETrace :=
  if E.status == SimulationStatus.running then
    ({ E with timerSet := false, status := SimulationStatus.paused, pausedTime := some now },
      [ETrace.onPause])
  else (E, [])

/-- Model of `SimulationEngine.resume()`: only from Paused; fold the completed pause
interval into `totalPausedDuration`, set Running, invoke `onResume`,
reschedule. -/
def resumeF (E : Engine) (now : Int) : Engine × List ETrace :=
  if E.status == SimulationStatus.paused then
    let E₁ :=
      match E.pausedTime with
      | some p =>
        { E with totalPausedDuration := E.totalPausedDuration + (now - p), pausedTime := none }
      | none => E
    let r := scheduleNextF { E₁ with status := SimulationStatus.running }
    (r.1, ETrace.onResume :: r.2)
  else (E, [])

/-- Model of `SimulationEngine.reset()`: `stop()`, reset the wrapped machine, zero
`eventCount`. -/
def engResetF (H : Handle) (fuel : Nat) (E : Engine) (ts : String) :
    Option (Engine × List ETrace) :=
  match resetF H fuel (stopF E).1.machine ts with
  | some (m₁, mtr) =>
    some ({ (stopF E).1 with machine := m₁, eventCount := 0 },
      (stopF E).2 ++ mtr.map ETrace.fromMachine)
  | none => none

/-- The public mutating operations of the engine, for quantifying over
"every public operation". -/
inductive EngOp where
  | start (opts : SimOptions) (now : Int)
  | stop
  | pause (now : Int)
  | resume (now : Int)
  | injectEvent (e : Event)
  | tick (gIdx : Nat)
  | reset
deriving Repr, DecidableEq

/-- Dispatch of one public operation.  A `tick` whose generator throws
propagates the exception to the caller of `tick()`, leaving the engine in
the state it had at the throw point; `none` = drain-fuel exhaustion. -/
def applyOp (H : Handle) (fuel : Nat) (op : EngOp) (E : Engine) (ts : String) :
    Option (Engine × List ETrace) :=
  match op with
  | EngOp.start opts now => some (startF E opts now)
  | EngOp.stop => some (stopF E)
  | EngOp.pause now => some (pauseF E now)
  | EngOp.resume now => some (resumeF E now)
  | EngOp.injectEvent e => injectEventF H fuel E e ts
  | EngOp.tick gIdx =>
    match tickF H fuel E gIdx ts with
    | TickResult.ok E₁ tr₁ => some (E₁, tr₁)
    | TickResult.threw E₁ tr₁ => some (E₁, tr₁)
    | TickResult.outOfFuel => none
  | EngOp.reset => engResetF H fuel E ts

/-- The eventCount the claim-C3 analysis predicts for a public operation
performed while the engine is not Running: `injectEvent` increments it,
`start` and `reset` zero it, and every other operation leaves it
unchanged. -/
def expectedFrozenCount : EngOp → Nat → Nat
  | EngOp.injectEvent _, c => c + 1
  | EngOp.start _ _, _ => 0
  | EngOp.reset, _ => 0
  | _, c => c

/-! ### The spec's runtime formula (for the refinement claim about `stats`) -/

/-- The runtime formula as the specification words it: "runtime = now −
startTime − accumulatedPausedDuration, additionally subtracting
(now − pauseStart) if currently Paused; clamped to ≥ 0", and 0 before the
first start. -/
def runtimeSpec (E : Engine) (now : Int) : Int :=
  match E.startTime with
  | none => 0
  | some s =>
    max 0 (now - s - E.totalPausedDuration -
      (if E.status = SimulationStatus.paused then
        (match E.pausedTime with
         | some p => now - p
         | none => 0)
      else 0))

/-! ### Concrete instances used in counterexamples and witnesses -/

/-- Domain behavior that performs no machine operation. -/
def idleHandle : Handle := fun _ _ => []

/-- Domain behavior: on an event of type `go`, call `transition("c")`. -/
def goHandle : Handle := fun _ e =>
  if e.type == "go" then [DomainAct.transitionTo "c"] else []

/-- Domain behavior that always throws. -/
def throwingHandle : Handle := fun _ _ => [DomainAct.throwErr]

/-- An event of type `go`. -/
def evGo : Event := { id := "evt_1", type := "go", timestamp := "t0" }

/-- An event of type `ping`. -/
def evPing : Event := { id := "evt_2", type := "ping", timestamp := "t0" }

/-- A machine at state `a`, table `a → [b]`, `b → [c]`, with the event
`evGo` pending in its queue. -/
def m1 : Machine :=
  { currentState := "a",
    allowedTransitions := [("a", ["b"]), ("b", ["c"])],
    stateHistory := [⟨"a", "t0"⟩],
    eventQueue := [evGo] }

/-- The result of `m1.transition("b")` under `goHandle`: the drain of the
pending `evGo` reentrantly transitioned on to `c`. -/
def m1After : Machine :=
  { currentState := "c",
    allowedTransitions := [("a", ["b"]), ("b", ["c"])],
    stateHistory := [⟨"a", "t0"⟩, ⟨"b", "t1"⟩, ⟨"c", "t1"⟩],
    eventQueue := [] }

/-- A machine whose initial (construction-time) state is the empty string
— a falsy value for the truthiness guard in `reset` — after one successful
transition to `a`. -/
def m4 : Machine :=
  { currentState := "",
    allowedTransitions := [("", ["a"])],
    stateHistory := [⟨"", "t0"⟩],
    eventQueue := [] }

/-- State of `m4` after `transition("a")`. -/
def m4After : Machine :=
  { currentState := "a",
    allowedTransitions := [("", ["a"])],
    stateHistory := [⟨"", "t0"⟩, ⟨"a", "t1"⟩],
    eventQueue := [] }

/-- A machine used in witnesses: state `b` reached from initial `a`. -/
def mW4 : Machine :=
  { currentState := "b",
    allowedTransitions := [("a", ["b"])],
    stateHistory := [⟨"a", "t0"⟩, ⟨"b", "t1"⟩],
    eventQueue := [] }

/-- A machine at `a` with table `a → [b]` and an empty queue. -/
def mW1 : Machine :=
  { currentState := "a",
    allowedTransitions := [("a", ["b"])],
    stateHistory := [⟨"a", "t0"⟩],
    eventQueue := [] }

/-- A trivial one-state machine. -/
def mTriv : Machine :=
  { currentState := "s",
    allowedTransitions := [],
    stateHistory := [⟨"s", "t0"⟩],
    eventQueue := [] }

/-- A running engine whose single configured generator always throws, with
a tick timer pending. -/
def Eg : Engine :=
  { machine := mTriv,
    status := SimulationStatus.running,
    options := { eventGenerators := [none] },
    timerSet := true,
    eventCount := 0,
    startTime := some 0 }

/-- A freshly constructed (Stopped) engine wrapping `mTriv`. -/
def E3 : Engine := { machine := mTriv }

/-- A Paused engine wrapping `mTriv`. -/
def E10 : Engine :=
  { machine := mTriv,
    status := SimulationStatus.paused,
    startTime := some 0,
    pausedTime := some 10 }

/-- A global queue handler that enqueues `evPing` when it sees an event of
type `go` and never throws. -/
def enqHandler : HandlerB :=
  { name := "h1",
    enq := fun e => if e.type == "go" then [evPing] else [],
    throwsOn := fun _ => false }

/-- A handler that always throws and enqueues nothing. -/
def throwHandler : HandlerB :=
  { name := "boom",
    enq := fun _ => [],
    throwsOn := fun _ => true }

/-- A queue holding `evGo` whose only global handler is `enqHandler`. -/
def q8 : EQState :=
  { queue := [evGo], handlers := [], globalHandlers := [enqHandler],
    processed := [], trace := [] }

/-- The drained `q8`. -/
def q8' : EQState :=
  { queue := [], handlers := [], globalHandlers := [enqHandler],
    processed := [evGo, evPing],
    trace := [QTrace.invoked "h1" "evt_1", QTrace.invoked "h1" "evt_2"] }

/-- A queue state with no handlers at all. -/
def qEmpty : EQState :=
  { queue := [], handlers := [], globalHandlers := [], processed := [], trace := [] }

/-- A queue state with two throwing handlers registered for type `ping`
and one global handler. -/
def qThrow : EQState :=
  { queue := [], handlers := [("ping", [throwHandler, enqHandler])],
    globalHandlers := [throwHandler],
    processed := [], trace := [] }

/-! ## Theorems -/

/-! ### Event dispatch lemmas -/

/-- Characterization of the handler-invocation loop: it appends every
handler's enqueues to the queue and every handler's invocation (plus its
caught-error log entry, when it throws) to the trace, touching nothing
else. -/
theorem runHandlers_spec (e : Event) (hs : List HandlerB) (s : EQState) :
    runHandlers e hs s =
      { s with
        queue := s.queue ++ hs.flatMap (fun h => h.enq e),
        trace := s.trace ++ hs.flatMap (fun h =>
          QTrace.invoked h.name e.id ::
            (if h.throwsOn e then [QTrace.errorLogged h.name] else [])) } := by
  induction hs generalizing s with
  | nil => simp [runHandlers]
  | cons h rest ih =>
    simp [runHandlers, ih, List.append_assoc]

theorem invocationsOf_append (a b : List QTrace) :
    invocationsOf (a ++ b) = invocationsOf a ++ invocationsOf b := by
  induction a with
  | nil => rfl
  | cons x rest ih => cases x <;> simp [invocationsOf, ih]

theorem invocationsOf_processTrace (s : EQState) (e : Event) :
    invocationsOf (processTrace s e) =
      (matchedHandlers s e).map (fun h => (h.name, e.id)) := by
  unfold processTrace
  induction matchedHandlers s e with
  | nil => rfl
  | cons h rest ih =>
    simp only [List.flatMap_cons, invocationsOf_append, List.map_cons, ← ih]
    by_cases ht : h.throwsOn e = true <;> simp [invocationsOf, ht]

theorem handlersFor_addHandler (hs : List (String × List HandlerB)) (t : String) (h : HandlerB) :
    handlersFor (addHandler hs t h) t = handlersFor hs t ++ [h] := by
  induction hs with
  | nil => simp [addHandler, handlersFor]
  | cons p rest ih =>
    by_cases hk : p.1 == t
    · cases p
      simp only at hk
      simp [addHandler, handlersFor, hk, List.find?]
    · cases p
      simp only at hk
      simp only [addHandler, hk, Bool.false_eq_true, if_false]
      simp [handlersFor, List.find?, hk] at ih ⊢
      exact ih

/-- Claim C7: `EventQueue.process(e)` invokes all type-specific handlers
registered for `e.type` in registration order, then all global handlers in
registration order; a throw from a handler is caught and logged without
skipping delivery to subsequent handlers and without escaping to the
caller (`process` is total and the trace/queue effect below holds whether
or not each handler throws); with zero matching handlers `process` is a
no-op.  Registration order is witnessed by the `onType`/`onAny`
conjuncts: a newly registered handler is appended at the end of its
list. -/
theorem c7_process_delivery (s : EQState) (e : Event) :
    process s e =
      { s with queue := s.queue ++ enqOf s e, trace := s.trace ++ processTrace s e } ∧
    invocationsOf (processTrace s e) =
      (matchedHandlers s e).map (fun h => (h.name, e.id)) ∧
    (matchedHandlers s e = [] → process s e = s) ∧
    (∀ h : HandlerB, matchedHandlers (onAny s h) e = matchedHandlers s e ++ [h]) ∧
    (∀ h : HandlerB,
      handlersFor (onType s e.type h).handlers e.type = handlersFor s.handlers e.type ++ [h]) := by
  refine ⟨?_, invocationsOf_processTrace s e, ?_, ?_, ?_⟩
  · unfold process enqOf processTrace
    exact runHandlers_spec e (matchedHandlers s e) s
  · intro hm
    unfold process
    rw [hm]
    rfl
  · intro h
    unfold matchedHandlers onAny
    simp [List.append_assoc]
  · intro h
    unfold onType
    exact handlersFor_addHandler s.handlers e.type h

/-- Witness for C7 at concrete inputs: with no handlers registered,
processing `evPing` is a no-op; with two `ping` handlers (a throwing one
first) plus a throwing global handler, all three are invoked in
order despite the throws. -/
theorem c7_process_delivery_witness :
    process qEmpty evPing = qEmpty ∧
    invocationsOf (processTrace qThrow evPing) =
      [("boom", "evt_2"), ("h1", "evt_2"), ("boom", "evt_2")] := by
  constructor
  · exact (c7_process_delivery qEmpty evPing).2.2.1 rfl
  · have h := (c7_process_delivery qThrow evPing).2.1
    rw [h]
    rfl

/-- During a drain the registries are untouched and `process` appends the
handler enqueues; key invariant for the depth-complete-drain claim. -/
theorem processAllF_drain (fuel : Nat) (s s' : EQState)
    (h : processAllF fuel s = some s') :
    s'.queue = [] ∧ s'.handlers = s.handlers ∧ s'.globalHandlers = s.globalHandlers ∧
    ∃ newP, s'.processed = s.processed ++ newP ∧
      newP = s.queue ++ newP.flatMap (fun e => enqOf s e) := by
  induction fuel generalizing s with
  | zero =>
    cases hq : s.queue with
    | nil =>
      rw [processAllF, hq] at h
      cases h
      exact ⟨hq, rfl, rfl, [], by simp, by simp [hq]⟩
    | cons e rest => rw [processAllF, hq] at h; cases h
  | succ fuel ih =>
    cases hq : s.queue with
    | nil =>
      rw [processAllF, hq] at h
      cases h
      exact ⟨hq, rfl, rfl, [], by simp, by simp [hq]⟩
    | cons e rest =>
      rw [processAllF, hq] at h
      set s₁ := process { s with queue := rest, processed := s.processed ++ [e] } e with hs₁
      have hspec := runHandlers_spec e
        (matchedHandlers { s with queue := rest, processed := s.processed ++ [e] } e)
        { s with queue := rest, processed := s.processed ++ [e] }
      have hmatch : matchedHandlers { s with queue := rest, processed := s.processed ++ [e] } e
          = matchedHandlers s e := rfl
      have h1q : s₁.queue = rest ++ enqOf s e := by
        rw [hs₁]; unfold process; rw [hspec, hmatch]; rfl
      have h1h : s₁.handlers = s.handlers := by
        rw [hs₁]; unfold process; rw [hspec]
      have h1g : s₁.globalHandlers = s.globalHandlers := by
        rw [hs₁]; unfold process; rw [hspec]
      have h1p : s₁.processed = s.processed ++ [e] := by
        rw [hs₁]; unfold process; rw [hspec]
      obtain ⟨hq', hh', hg', p, hp, heq⟩ := ih s₁ h
      have henq : (fun e' => enqOf s₁ e') = (fun e' => enqOf s e') := by
        funext e'
        unfold enqOf matchedHandlers handlersFor
        rw [h1h, h1g]
      rw [henq, h1q] at heq
      refine ⟨hq', by rw [hh', h1h], by rw [hg', h1g], e :: p, ?_, ?_⟩
      · rw [hp, h1p, List.append_assoc]
        rfl
      · conv_lhs => rw [heq]
        simp [List.append_assoc]

/-- Claim C8: whenever `processAll()` terminates (`fuel` bounds the number
of loop iterations, so termination is exactly the hypothesis that handlers
enqueue only finitely many further events), it returns with the queue
empty, and the sequence `newP` of events it processed (in FIFO dequeue
order) consists of exactly the events that were queued at the start of the
call followed by every event enqueued by a handler during the drain, as
expressed by the fixed-point equation
`newP = initialQueue ++ concat-of-enqueues-of-newP`. -/
theorem c8_processAll_drains (fuel : Nat) (s s' : EQState)
    (h : processAllF fuel s = some s') :
    s'.queue = [] ∧
    ∃ newP, s'.processed = s.processed ++ newP ∧
      newP = s.queue ++ newP.flatMap (fun e => enqOf s e) := by
  obtain ⟨h1, _, _, h4⟩ := processAllF_drain fuel s s' h
  exact ⟨h1, h4⟩

/-- Witness for C8 at a concrete input: draining `q8` (queue `[evGo]`,
one global handler that enqueues `evPing` on `go`) processes `[evGo,
evPing]` and empties the queue. -/
theorem c8_processAll_drains_witness :
    processAllF 3 q8 = some q8' ∧ q8'.queue = [] ∧
    q8'.processed = q8.processed ++ [evGo, evPing] ∧
    [evGo, evPing] = q8.queue ++ ([evGo, evPing]).flatMap (fun e => enqOf q8 e) := by
  have h := c8_processAll_drains 3 q8 q8' rfl
  exact ⟨rfl, h.1, rfl, rfl⟩

/-! ### State machine theorems -/

/-- Claim C1 fails as stated: with the event `evGo` pending in `m1`'s
queue and a domain behavior that transitions on `go`, the successful
`transition("b")` drains the queue and transitions on to `c`: afterwards
`currentState` is `c`, not the requested `b`, and the history grew by 2
entries, not exactly 1. -/
theorem c1_transition_counterexample :
    transitionF goHandle 6 m1 "b" "t1" =
      some (m1After, true, [MTrace.stateChange "a" "b", MTrace.stateChange "b" "c"]) ∧
    m1After.currentState ≠ "b" ∧
    m1After.stateHistory.length ≠ m1.stateHistory.length + 1 := by
  refine ⟨by decide, by decide, by decide⟩

/-- Claim C1 (amended): `transition(t)` returns true iff `t` is in the
transition table entry for the current state (an absent entry allows
nothing).  On failure, state, history and queue are unchanged and the
`onInvalidTransition` callback fires exactly once with `(from, t)`.  On
success, *provided the pending event queue is empty at the call* (so the
post-transition drain processes nothing), `currentState` becomes `t`, the
history grows by exactly the one entry `(t, ts)`, and `onStateChange`
fires exactly once; with a non-empty queue the drain may perform further
transitions (see the counterexample).  The last conjunct: whenever
`transition` returns at all, its Boolean result equals `canTransition`. -/
theorem c1_transition_contract (H : Handle) (fuel : Nat) (m : Machine) (t ts : String) :
    (canTransition m t = false →
      transitionF H (fuel + 1) m t ts =
        some (m, false, [MTrace.invalidTransition m.currentState t])) ∧
    (canTransition m t = true → m.eventQueue = [] →
      transitionF H (fuel + 2) m t ts =
        some ({ m with currentState := t, stateHistory := m.stateHistory ++ [⟨t, ts⟩] },
          true, [MTrace.stateChange m.currentState t])) ∧
    (∀ m' res tr, transitionF H fuel m t ts = some (m', res, tr) →
      res = canTransition m t) := by
  refine ⟨?_, ?_, ?_⟩
  · intro hc
    simp [transitionF, hc]
  · intro hc hq
    simp [transitionF, hc, drainF, hq]
  · intro m' res tr hsome
    cases fuel with
    | zero => rw [transitionF] at hsome; cases hsome
    | succ f =>
      by_cases hc : canTransition m t = true
      · rw [hc]
        simp only [transitionF, hc, if_true] at hsome
        split at hsome
        · cases hsome
          rfl
        · cases hsome
      · have hc' : canTransition m t = false := by simpa using hc
        rw [hc']
        simp only [transitionF, hc', Bool.false_eq_true, if_false] at hsome
        cases hsome
        rfl

/-- Witness for the amended C1 at concrete inputs: on `mW1` (state `a`,
table `a → [b]`, empty queue), `transition("z")` fails with one
invalid-transition callback and no change, and `transition("b")` succeeds
moving to `b` with history grown by one. -/
theorem c1_transition_contract_witness :
    transitionF idleHandle 1 mW1 "z" "t1" =
      some (mW1, false, [MTrace.invalidTransition "a" "z"]) ∧
    transitionF idleHandle 2 mW1 "b" "t1" =
      some ({ mW1 with
              currentState := "b",
              stateHistory := mW1.stateHistory ++ [⟨"b", "t1"⟩] },
        true, [MTrace.stateChange "a" "b"]) := by
  exact ⟨(c1_transition_contract idleHandle 0 mW1 "z" "t1").1 (by decide),
         (c1_transition_contract idleHandle 0 mW1 "b" "t1").2.1 (by decide) rfl⟩

/-- Claim C4 fails as stated: for a machine whose construction-time
initial state is the empty string (a falsy value), `reset()`'s truthiness
guard `if (initialState)` skips the restore entirely: after a prior
transition to `a`, `reset()` leaves `currentState = "a"` and the
2-entry history untouched. -/
theorem c4_reset_counterexample :
    transitionF idleHandle 2 m4 "a" "t1" =
      some (m4After, true, [MTrace.stateChange "" "a"]) ∧
    resetF idleHandle 5 m4After "t2" = some (m4After, []) ∧
    m4After.stateHistory.length ≠ 1 ∧
    m4After.currentState ≠ "" := by
  refine ⟨by decide, by decide, by decide, by decide⟩

/-- Claim C4 (amended): for every machine whose recorded initial state is
truthy (a non-empty string) and whose pending event queue is empty (so
the drain inside `forceTransition` performs no further transition),
`reset()` — regardless of how many transitions were performed — truncates
the history to exactly the original first entry and makes `currentState`
that initial state. -/
theorem c4_reset_restores (H : Handle) (fuel : Nat) (m : Machine) (ts : String)
    (h0 : HistoryEntry) (rest : List HistoryEntry)
    (hh : m.stateHistory = h0 :: rest) (hne : h0.state ≠ "") (hq : m.eventQueue = []) :
    resetF H (fuel + 2) m ts =
      some ({ m with currentState := h0.state, stateHistory := [h0] },
        [MTrace.stateChange m.currentState h0.state]) := by
  have hbeq : (h0.state == "") = false := by simpa using hne
  simp [resetF, forceTransitionF, drainF, hh, hq, hbeq, List.take]

/-- Witness for the amended C4: `mW4` (initial `a`, currently `b` after a
transition) is restored to `currentState = "a"` with history exactly the
original first entry. -/
theorem c4_reset_restores_witness :
    resetF idleHandle 2 mW4 "t2" =
      some ({ mW4 with currentState := "a", stateHistory := [⟨"a", "t0"⟩] },
        [MTrace.stateChange "b" "a"]) :=
  c4_reset_restores idleHandle 0 mW4 "t2" ⟨"a", "t0"⟩ [⟨"b", "t1"⟩] rfl (by decide) rfl

/-- Claim C9: whatever the domain behavior does — including throwing
(`threw = true`) — `processEvent` catches the error (returning normally,
with a logged `handlerErrorLogged` entry instead of a propagated
exception), and the engine's `_processEvent` still increments
`eventCount` by exactly 1 and completes normally, so the scheduling loop
is not halted; the machine keeps the side effects the behavior performed
before the throw. -/
theorem c9_processEvent_catches (H : Handle) (fuel : Nat) (E : Engine) (e : Event)
    (ts : String) (m₁ : Machine) (tr : List MTrace) (threw : Bool)
    (h : runActs H fuel E.machine (H E.machine e) ts = some (m₁, tr, threw)) :
    processEventF H (fuel + 1) E.machine e ts =
      some (m₁, tr ++ (if threw then [MTrace.handlerErrorLogged e.type] else [])) ∧
    engProcessEvent H (fuel + 1) E e ts =
      some ({ E with machine := m₁, eventCount := E.eventCount + 1 },
        (tr ++ (if threw then [MTrace.handlerErrorLogged e.type] else [])).map
            ETrace.fromMachine ++ [ETrace.onEventProcessed e.id]) := by
  have h1 : processEventF H (fuel + 1) E.machine e ts =
      some (m₁, tr ++ (if threw then [MTrace.handlerErrorLogged e.type] else [])) := by
    rw [processEventF, h]
  exact ⟨h1, by rw [engProcessEvent, h1]⟩

/-- Witness for C9: with the always-throwing domain behavior, processing
`evPing` on the engine `E3` logs the handler error and still increments
`eventCount` from 0 to 1. -/
theorem c9_processEvent_catches_witness :
    processEventF throwingHandle 2 E3.machine evPing "t1" =
      some (mTriv, [MTrace.handlerErrorLogged "ping"]) ∧
    engProcessEvent throwingHandle 2 E3 evPing "t1" =
      some ({ E3 with machine := mTriv, eventCount := 1 },
        [ETrace.fromMachine (MTrace.handlerErrorLogged "ping"),
         ETrace.onEventProcessed "evt_2"]) := by
  have h := c9_processEvent_catches throwingHandle 1 E3 evPing "t1" mTriv [] true rfl
  exact ⟨h.1, h.2⟩

/-! ### Scheduling engine lemmas -/

theorem stopF_eventCount (E : Engine) : (stopF E).1.eventCount = E.eventCount := by
  unfold stopF
  split <;> rfl

theorem stopF_status (E : Engine) :
    (stopF E).1.status = SimulationStatus.stopped := by
  unfold stopF
  split
  · rename_i hs
    simpa using hs
  · rfl

theorem scheduleNextF_eventCount (E : Engine) :
    (scheduleNextF E).1.eventCount = E.eventCount := by
  unfold scheduleNextF
  split
  · split
    · exact stopF_eventCount E
    · rfl
  · rfl

theorem pauseF_eventCount (E : Engine) (now : Int) :
    (pauseF E now).1.eventCount = E.eventCount := by
  unfold pauseF
  split <;> rfl

theorem resumeF_eventCount (E : Engine) (now : Int) :
    (resumeF E now).1.eventCount = E.eventCount := by
  unfold resumeF
  split
  · split <;> simp [scheduleNextF_eventCount]
  · rfl

theorem engProcessEvent_some (H : Handle) (fuel : Nat) (E : Engine) (e : Event)
    (ts : String) (E' : Engine) (tr : List ETrace)
    (h : engProcessEvent H fuel E e ts = some (E', tr)) :
    E'.eventCount = E.eventCount + 1 ∧ E'.status = E.status := by
  unfold engProcessEvent at h
  cases hpe : processEventF H fuel E.machine e ts with
  | none => rw [hpe] at h; cases h
  | some p =>
    obtain ⟨m₁, mtr⟩ := p
    rw [hpe] at h
    cases h
    exact ⟨rfl, rfl⟩

theorem tickF_not_running (H : Handle) (fuel : Nat) (E : Engine) (gIdx : Nat) (ts : String)
    (h : E.status ≠ SimulationStatus.running) :
    tickF H fuel E gIdx ts = TickResult.ok E [] := by
  unfold tickF
  rw [if_neg (by simpa using h)]

theorem tickF_ok_count (H : Handle) (fuel : Nat) (E : Engine) (gIdx : Nat) (ts : String)
    (E₁ : Engine) (tr₁ : List ETrace)
    (h : tickF H fuel E gIdx ts = TickResult.ok E₁ tr₁) :
    E.eventCount ≤ E₁.eventCount := by
  unfold tickF at h
  split at h
  · split at h
    · cases h
      exact le_refl _
    · split at h
      · split at h
        · rename_i hep
          cases h
          rw [(engProcessEvent_some H fuel E _ ts _ _ hep).1]
          exact Nat.le_succ _
        · cases h
      · cases h
  · cases h
    exact le_refl _

theorem tickF_threw_count (H : Handle) (fuel : Nat) (E : Engine) (gIdx : Nat) (ts : String)
    (E₁ : Engine) (tr₁ : List ETrace)
    (h : tickF H fuel E gIdx ts = TickResult.threw E₁ tr₁) :
    E₁.eventCount = E.eventCount := by
  unfold tickF at h
  split at h
  · split at h
    · cases h
    · split at h
      · split at h
        · cases h
        · cases h
      · cases h
        rfl
  · cases h

/-! ### Scheduling engine claim theorems -/

/-- Claim C2 is contradicted by the code: `tick()` invokes the generator
with no try/catch, so on the engine `Eg` (Running, one always-throwing
generator, timer pending) the timer firing runs `onTick` and then throws
out of the `setTimeout` callback, leaving the engine with `eventCount`
unchanged, status still Running, and — because `_scheduleNextEvent` was
never reached — no timer scheduled, so every later firing attempt is a
no-op: the scheduling loop has halted, where the claim (and spec §7) says
the error is caught and logged and ticks keep occurring. -/
theorem c2_generator_error_halts_loop :
    timerFire idleHandle 5 Eg 0 "t1" =
      TickResult.threw { Eg with timerSet := false } [ETrace.onTick] ∧
    ({ Eg with timerSet := false }).eventCount = Eg.eventCount ∧
    ({ Eg with timerSet := false }).status = SimulationStatus.running ∧
    ({ Eg with timerSet := false }).timerSet = false ∧
    (∀ (H : Handle) (fuel gIdx : Nat) (ts : String),
      timerFire H fuel { Eg with timerSet := false } gIdx ts =
        TickResult.ok { Eg with timerSet := false } []) := by
  refine ⟨by decide, rfl, rfl, rfl, ?_⟩
  intro H fuel gIdx ts
  rfl

/-- Claim C3 fails as stated: `injectEvent` is a public operation other
than `start`/`reset` that changes `eventCount` while the engine is
Stopped — on the freshly constructed engine `E3` it raises the count from
0 to 1. -/
theorem c3_eventCount_counterexample :
    E3.status = SimulationStatus.stopped ∧
    applyOp idleHandle 2 (EngOp.injectEvent evPing) E3 "t1" =
      some ({ E3 with eventCount := 1 }, [ETrace.onEventProcessed "evt_2"]) ∧
    (1 : Nat) ≠ E3.eventCount := by
  refine ⟨rfl, by decide, by decide⟩

/-- Claim C3 (amended): while Running, every public operation except
`reset()` leaves `eventCount` monotonically non-decreasing; while Stopped
or Paused, the only public operations that change `eventCount` are
`injectEvent` (which increments it by exactly 1), `start()` and `reset()`
(which zero it); every other operation leaves it unchanged
(`expectedFrozenCount`). -/
theorem c3_eventCount_updates (H : Handle) (fuel : Nat) (op : EngOp) (E : Engine)
    (ts : String) (E' : Engine) (tr : List ETrace)
    (h : applyOp H fuel op E ts = some (E', tr)) :
    (E.status = SimulationStatus.running → op ≠ EngOp.reset →
      E.eventCount ≤ E'.eventCount) ∧
    (E.status ≠ SimulationStatus.running →
      E'.eventCount = expectedFrozenCount op E.eventCount) := by
  cases op with
  | start opts now =>
    simp only [applyOp] at h
    have hE : (startF E opts now).1 = E' := congrArg Prod.fst (Option.some.inj h)
    constructor
    · intro hrun _
      rw [← hE]
      simp [startF, hrun]
    · intro hnr
      rw [← hE]
      simp [startF, hnr, scheduleNextF_eventCount, expectedFrozenCount]
  | stop =>
    simp only [applyOp] at h
    have hE : (stopF E).1 = E' := congrArg Prod.fst (Option.some.inj h)
    constructor
    · intro _ _
      rw [← hE, stopF_eventCount]
    · intro _
      rw [← hE, stopF_eventCount]
      rfl
  | pause now =>
    simp only [applyOp] at h
    have hE : (pauseF E now).1 = E' := congrArg Prod.fst (Option.some.inj h)
    constructor
    · intro _ _
      rw [← hE, pauseF_eventCount]
    · intro _
      rw [← hE, pauseF_eventCount]
      rfl
  | resume now =>
    simp only [applyOp] at h
    have hE : (resumeF E now).1 = E' := congrArg Prod.fst (Option.some.inj h)
    constructor
    · intro _ _
      rw [← hE, resumeF_eventCount]
    · intro _
      rw [← hE, resumeF_eventCount]
      rfl
  | injectEvent e =>
    simp only [applyOp] at h
    unfold injectEventF at h
    have hc := (engProcessEvent_some H fuel E e ts E' tr h).1
    constructor
    · intro _ _
      rw [hc]
      exact Nat.le_succ _
    · intro _
      rw [hc]
      rfl
  | tick gIdx =>
    simp only [applyOp] at h
    cases ht : tickF H fuel E gIdx ts with
    | outOfFuel => rw [ht] at h; cases h
    | ok E₁ tr₁ =>
      rw [ht] at h
      have hE : E₁ = E' := congrArg Prod.fst (Option.some.inj h)
      constructor
      · intro _ _
        rw [← hE]
        exact tickF_ok_count H fuel E gIdx ts E₁ tr₁ ht
      · intro hnr
        rw [tickF_not_running H fuel E gIdx ts hnr] at ht
        cases ht
        rw [← hE]
        rfl
    | threw E₁ tr₁ =>
      rw [ht] at h
      have hE : E₁ = E' := congrArg Prod.fst (Option.some.inj h)
      constructor
      · intro _ _
        rw [← hE, tickF_threw_count H fuel E gIdx ts E₁ tr₁ ht]
      · intro hnr
        rw [tickF_not_running H fuel E gIdx ts hnr] at ht
        cases ht
  | reset =>
    simp only [applyOp] at h
    unfold engResetF at h
    cases hr : resetF H fuel (stopF E).1.machine ts with
    | none => rw [hr] at h; cases h
    | some p =>
      obtain ⟨m₁, mtr⟩ := p
      rw [hr] at h
      have hE :
          ({ (stopF E).1 with machine := m₁, eventCount := 0 } : Engine) = E' :=
        congrArg Prod.fst (Option.some.inj h)
      constructor
      · intro _ hne
        exact absurd rfl hne
      · intro _
        rw [← hE]
        rfl

/-- Witness for the amended C3: injecting `evPing` into the Stopped
engine `E3` yields exactly `expectedFrozenCount` (an increment to 1). -/
theorem c3_eventCount_updates_witness :
    ({ E3 with eventCount := 1 }).eventCount =
      expectedFrozenCount (EngOp.injectEvent evPing) E3.eventCount := by
  have h := c3_eventCount_updates idleHandle 2 (EngOp.injectEvent evPing) E3 "t1"
    ({ E3 with eventCount := 1 }) [ETrace.onEventProcessed "evt_2"] (by decide)
  exact h.2 (by decide)

/-- Claim C5: `stop()` always leaves the status Stopped (and clears the
pending timer whenever it was not already Stopped), and the `setTimeout`
callback body checks the status before acting, so on any engine that is
not Running a (stale) firing performs no tick and changes nothing — in
particular `eventCount` is not increased after `stop()`. -/
theorem c5_stale_timer_guard (E E' : Engine) (H : Handle) (fuel gIdx : Nat) (ts : String)
    (h : E'.status ≠ SimulationStatus.running) :
    (stopF E).1.status = SimulationStatus.stopped ∧
    (E.status ≠ SimulationStatus.stopped → (stopF E).1.timerSet = false) ∧
    timerCallbackBody H fuel E' gIdx ts = TickResult.ok E' [] := by
  refine ⟨stopF_status E, ?_, ?_⟩
  · intro hne
    unfold stopF
    rw [if_neg (by simpa using hne)]
  · unfold timerCallbackBody
    rw [if_neg (by simpa using h)]

/-- Witness for C5: stopping the running engine `Eg` yields status
Stopped, and a stale callback firing on the Stopped engine `E3` is a
no-op. -/
theorem c5_stale_timer_guard_witness :
    (stopF Eg).1.status = SimulationStatus.stopped ∧
    timerCallbackBody idleHandle 3 E3 0 "t1" = TickResult.ok E3 [] := by
  have h := c5_stale_timer_guard Eg E3 idleHandle 3 0 "t1" (by decide)
  exact ⟨h.1, h.2.2⟩

/-- Claim C6: for every engine state, `stats` reports exactly the
specification's runtime formula (`now − startTime − accumulatedPaused`,
additionally subtracting the in-progress pause when Paused, clamped to
≥ 0), the reported runtime is never negative, and it is 0 before the
first start. -/
theorem c6_stats_runtime (E : Engine) (now : Int) :
    (statsF E now).runtime = runtimeSpec E now ∧
    0 ≤ (statsF E now).runtime ∧
    (E.startTime = none → (statsF E now).runtime = 0) := by
  refine ⟨?_, ?_, ?_⟩
  · unfold statsF runtimeSpec
    cases E.startTime with
    | none => simp
    | some s =>
      by_cases hp : E.status = SimulationStatus.paused
      · cases hpt : E.pausedTime with
        | none => simp [hp]
        | some p =>
          simp only [hp]
          simp [sub_sub]
      · simp [hp]
  · unfold statsF
    exact le_max_left 0 _
  · intro h
    simp [statsF, h]

/-- Witness for C6: on the never-started engine `E3` the reported runtime
matches the spec formula and is 0. -/
theorem c6_stats_runtime_witness :
    (statsF E3 5).runtime = runtimeSpec E3 5 ∧ (statsF E3 5).runtime = 0 := by
  have h := c6_stats_runtime E3 5
  exact ⟨h.1, h.2.2 rfl⟩

/-- Claim C10: `injectEvent(e)` calls `_processEvent(e)` with no status
check at all: for every engine — Stopped, Running or Paused alike — it
forwards `e` to the wrapped machine's `processEvent`, increments
`eventCount` by exactly 1, fires `onEventProcessed(e)`, and leaves the
status unchanged. -/
theorem c10_injectEvent_any_status (H : Handle) (fuel : Nat) (E : Engine) (e : Event)
    (ts : String) (m₁ : Machine) (mtr : List MTrace)
    (h : processEventF H fuel E.machine e ts = some (m₁, mtr)) :
    injectEventF H fuel E e ts =
      some ({ E with machine := m₁, eventCount := E.eventCount + 1 },
        mtr.map ETrace.fromMachine ++ [ETrace.onEventProcessed e.id]) ∧
    ({ E with machine := m₁, eventCount := E.eventCount + 1 }).status = E.status := by
  constructor
  · unfold injectEventF engProcessEvent
    rw [h]
  · rfl

/-- Witness for C10: injecting `evPing` into the Paused engine `E10`
increments `eventCount` to 1 and fires `onEventProcessed`, status still
Paused. -/
theorem c10_injectEvent_any_status_witness :
    injectEventF idleHandle 2 E10 evPing "t1" =
      some ({ E10 with machine := mTriv, eventCount := 1 },
        [ETrace.onEventProcessed "evt_2"]) ∧
    E10.status = SimulationStatus.paused := by
  have h := c10_injectEvent_any_status idleHandle 2 E10 evPing "t1" mTriv [] rfl
  exact ⟨h.1, rfl⟩

end SimF
